import Mathlib

/-!
Verification of the bswitcher selection pipeline (src/main.rs).

The Rust program is a single function `run` gluing four external
collaborators (bspc focus history, xtitle, dmenu, bspc node --focus)
around a pure pipeline: deduplicate the focus history, pair identifiers
with titles, sort by policy, render each entry through a shell template,
optionally reverse, hand the lines to the selector, and map the chosen
line back to a node identifier.

This file shallowly embeds that pipeline.  External collaborators are
modelled as inputs (a `World` record of their responses); the shell
template evaluator is an opaque function parameter; fallible steps that
abort the Rust process (`Vec::remove` on an empty vector, the
`.expect` on an unmatched selection) are modelled with `Option` /
a `panic` outcome.
-/

namespace BSwitcher

/-- The four sort policies of the program (enum `SortOrder` in main.rs). -/
inductive SortOrder where
  | focusHistory
  | focusHistoryCurrentFirst
  | creation
  | alphabetical
deriving DecidableEq, Repr

/-! ## Deduplication (main.rs lines 83-93)

`bspwm_focus_history.iter().map(|h| h["nodeId"].to_string()).rev().unique()`
reverses the raw identifier sequence and keeps only the first occurrence
of each identifier.  `uniqueAux` embeds the itertools `unique` adaptor,
which remembers the identifiers already produced. -/

def uniqueAux (seen : List String) : List String → List String
  | [] => []
  | x :: xs => if x ∈ seen then uniqueAux seen xs else x :: uniqueAux (x :: seen) xs

/-- The itertools `unique` adaptor: keep the first occurrence of each element. -/
def uniqueList (l : List String) : List String := uniqueAux [] l

/-- The whole deduplication step: reverse the raw history, then keep first
occurrences (most recent focus event per window survives). -/
def dedupHistory (raw : List String) : List String := uniqueList raw.reverse

/-- Recursive reformulation of keep-first deduplication, convenient for proofs. -/
def dedupKeepFirst : List String → List String
  | [] => []
  | x :: xs => x :: dedupKeepFirst (xs.filter fun y => decide (y ≠ x))
termination_by l => l.length
decreasing_by
  simp only [List.length_cons]
  exact Nat.lt_succ_of_le (List.length_filter_le _ _)

theorem dedupKeepFirst_nil : dedupKeepFirst [] = [] := by
  rw [dedupKeepFirst.eq_def]

theorem dedupKeepFirst_cons (x : String) (xs : List String) :
    dedupKeepFirst (x :: xs) = x :: dedupKeepFirst (xs.filter fun y => decide (y ≠ x)) := by
  rw [dedupKeepFirst.eq_def]

theorem uniqueAux_eq_dedupKeepFirst :
    ∀ (l seen : List String),
      uniqueAux seen l = dedupKeepFirst (l.filter fun y => decide (y ∉ seen)) := by
  intro l
  induction l with
  | nil => intro seen; simp [uniqueAux, dedupKeepFirst_nil]
  | cons x xs ih =>
    intro seen
    by_cases hx : x ∈ seen
    · have hfc : List.filter (fun y => decide (y ∉ seen)) (x :: xs)
          = List.filter (fun y => decide (y ∉ seen)) xs := by
        simp [List.filter_cons, hx]
      simp only [uniqueAux, if_pos hx]
      rw [hfc]
      exact ih seen
    · have hfc : List.filter (fun y => decide (y ∉ seen)) (x :: xs)
          = x :: List.filter (fun y => decide (y ∉ seen)) xs := by
        simp [List.filter_cons, hx]
      simp only [uniqueAux, if_neg hx]
      rw [hfc, dedupKeepFirst_cons, ih (x :: seen)]
      congr 1
      rw [List.filter_filter]
      congr 1
      apply List.filter_congr
      intro y _
      simp only [← Bool.decide_and, decide_eq_decide, List.mem_cons, not_or]

theorem uniqueList_eq_dedupKeepFirst (l : List String) :
    uniqueList l = dedupKeepFirst l := by
  have h := uniqueAux_eq_dedupKeepFirst l []
  simpa [uniqueList] using h

theorem mem_dedupKeepFirst : ∀ (l : List String) (a : String),
    a ∈ dedupKeepFirst l ↔ a ∈ l
  | [], a => by simp [dedupKeepFirst_nil]
  | x :: xs, a => by
    rw [dedupKeepFirst_cons]
    by_cases hax : a = x
    · subst hax; simp
    · simp only [List.mem_cons, hax, false_or]
      rw [mem_dedupKeepFirst (xs.filter fun y => decide (y ≠ x)) a]
      simp [List.mem_filter, hax]
termination_by l => l.length
decreasing_by
  simp only [List.length_cons]
  exact Nat.lt_succ_of_le (List.length_filter_le _ _)

theorem nodup_dedupKeepFirst : ∀ (l : List String), (dedupKeepFirst l).Nodup
  | [] => by simp [dedupKeepFirst_nil]
  | x :: xs => by
    rw [dedupKeepFirst_cons]
    refine List.nodup_cons.mpr ⟨?_, nodup_dedupKeepFirst _⟩
    intro hmem
    have := (mem_dedupKeepFirst _ x).mp hmem
    simp [List.mem_filter] at this
termination_by l => l.length
decreasing_by
  simp only [List.length_cons]
  exact Nat.lt_succ_of_le (List.length_filter_le _ _)

theorem indexOf_filter_lt {p : String → Bool} :
    ∀ (xs : List String) (a b : String), p a = true → p b = true →
      (xs.filter p).indexOf a < (xs.filter p).indexOf b →
      xs.indexOf a < xs.indexOf b := by
  intro xs
  induction xs with
  | nil => intro a b _ _ h; simp at h
  | cons y ys ih =>
    intro a b hpa hpb h
    by_cases hpy : p y = true
    · rw [List.filter_cons_of_pos hpy] at h
      by_cases hay : a = y
      · subst hay
        have hba : b ≠ a := by
          intro hba; subst hba; simp at h
        rw [List.indexOf_cons_self]
        rw [List.indexOf_cons_ne _ (fun hby => hba hby.symm)]
        exact Nat.succ_pos _
      · have hya : y ≠ a := fun hya => hay hya.symm
        rw [List.indexOf_cons_ne _ hya] at h
        have hby : b ≠ y := by
          intro hby; subst hby
          rw [List.indexOf_cons_self] at h
          exact absurd h (Nat.not_lt_zero _)
        have hyb : y ≠ b := fun hyb => hby hyb.symm
        rw [List.indexOf_cons_ne _ hyb] at h
        have := ih a b hpa hpb (Nat.lt_of_succ_lt_succ h)
        rw [List.indexOf_cons_ne _ hya, List.indexOf_cons_ne _ hyb]
        exact Nat.succ_lt_succ this
    · have hpy' : ¬ p y = true := hpy
      rw [List.filter_cons_of_neg hpy'] at h
      have hya : y ≠ a := by intro hya; subst hya; exact hpy hpa
      have hyb : y ≠ b := by intro hyb; subst hyb; exact hpy hpb
      rw [List.indexOf_cons_ne _ hya, List.indexOf_cons_ne _ hyb]
      exact Nat.succ_lt_succ (ih a b hpa hpb h)

theorem pairwise_indexOf_dedupKeepFirst :
    ∀ (l : List String),
      (dedupKeepFirst l).Pairwise (fun a b => l.indexOf a < l.indexOf b)
  | [] => by simp [dedupKeepFirst_nil]
  | x :: xs => by
    rw [dedupKeepFirst_cons]
    refine List.Pairwise.cons ?_ ?_
    · intro b hb
      have hbmem : b ∈ xs.filter fun y => decide (y ≠ x) :=
        (mem_dedupKeepFirst _ b).mp hb
      have hbx : b ≠ x := by
        have := (List.mem_filter.mp hbmem).2
        simpa using this
      rw [List.indexOf_cons_self, List.indexOf_cons_ne _ (fun h => hbx h.symm)]
      exact Nat.succ_pos _
    · have ihp := pairwise_indexOf_dedupKeepFirst (xs.filter fun y => decide (y ≠ x))
      refine ihp.imp_of_mem ?_
      intro a b ha hb hab
      have hamem := (mem_dedupKeepFirst _ a).mp ha
      have hbmem := (mem_dedupKeepFirst _ b).mp hb
      have hax : a ≠ x := by
        have := (List.mem_filter.mp hamem).2; simpa using this
      have hbx : b ≠ x := by
        have := (List.mem_filter.mp hbmem).2; simpa using this
      have hpa : (fun y => decide (y ≠ x)) a = true := by simp [hax]
      have hpb : (fun y => decide (y ≠ x)) b = true := by simp [hbx]
      have := indexOf_filter_lt xs a b hpa hpb hab
      rw [List.indexOf_cons_ne _ (fun h => hax h.symm),
        List.indexOf_cons_ne _ (fun h => hbx h.symm)]
      exact Nat.succ_lt_succ this
termination_by l => l.length
decreasing_by
  simp only [List.length_cons]
  exact Nat.lt_succ_of_le (List.length_filter_le _ _)

/-- Claim C1: the deduplication step yields each distinct identifier exactly
once, in most-recent-occurrence-first order (the raw most-recent-last sequence
is reversed, then deduplicated keeping only the first occurrence); in
particular input [a,b,a,c,b] yields [b,c,a]. -/
theorem claim_C1_dedup_spec (raw : List String) :
    (∀ x, x ∈ raw → (dedupHistory raw).count x = 1)
    ∧ (∀ x, x ∈ dedupHistory raw ↔ x ∈ raw)
    ∧ (dedupHistory raw).Pairwise
        (fun a b => raw.reverse.indexOf a < raw.reverse.indexOf b)
    ∧ dedupHistory ["a", "b", "a", "c", "b"] = ["b", "c", "a"] := by
  have hd : dedupHistory raw = dedupKeepFirst raw.reverse := by
    rw [dedupHistory, uniqueList_eq_dedupKeepFirst]
  refine ⟨?_, ?_, ?_, ?_⟩
  · intro x hx
    rw [hd]
    exact List.count_eq_one_of_mem (nodup_dedupKeepFirst _)
      ((mem_dedupKeepFirst _ x).mpr (List.mem_reverse.mpr hx))
  · intro x
    rw [hd, mem_dedupKeepFirst, List.mem_reverse]
  · rw [hd]
    exact pairwise_indexOf_dedupKeepFirst _
  · decide

/-- Witness for claim C1 at a concrete input. -/
theorem claim_C1_dedup_spec_witness :
    (dedupHistory ["a", "b", "a", "c", "b"]).count "a" = 1 :=
  (claim_C1_dedup_spec ["a", "b", "a", "c", "b"]).1 "a" (by decide)

/-! ## The Ordering Engine (main.rs lines 96-115)

Pairing drops to the shorter of the two sequences (`zip`) and filters out
empty titles; the sort is the stable `sorted_by` of itertools with a
three-way comparator per policy, followed for FocusHistory by moving the
first element to the end (`Vec::remove(0)` panics on an empty vector,
modelled by `Option`). -/

/-- An entry is a (title, nodeId) pair, in the tuple order of
`xtitles.lines().zip(nodes_in_history_order.iter())`. -/
abbrev Entry := String × String

/-- Pair title lines with deduplicated identifiers positionally (`zip`
truncates to the shorter list) and drop pairs with an empty title. -/
def pairEntries (xtitleLines ids : List String) : List Entry :=
  (xtitleLines.zip ids).filter fun p => decide (p.1 ≠ "")

/-- Three-way string comparison, embedding the Rust `Ord::cmp` on `String`
(a total order; Rust compares bytes, Lean compares characters, which agree
on the ASCII identifiers and titles involved). -/
def cmpStr (a b : String) : Ordering :=
  if a < b then Ordering.lt else if a = b then Ordering.eq else Ordering.gt

/-- The comparator passed to `sorted_by` (main.rs lines 106-110). -/
def sortComparator : SortOrder → Entry → Entry → Ordering
  | SortOrder.alphabetical, a, b => cmpStr a.1.toLower b.1.toLower
  | SortOrder.creation, a, b => cmpStr a.2 b.2
  | SortOrder.focusHistory, _, _ => Ordering.eq
  | SortOrder.focusHistoryCurrentFirst, _, _ => Ordering.eq

/-- Not-greater test derived from the comparator; `sorted_by` puts `a` before
`b` whenever the comparator does not say `Greater`. -/
def cmpLe (o : SortOrder) (a b : Entry) : Bool :=
  sortComparator o a b != Ordering.gt

/-- Insert `a` before the first element `b` with `le a b`; the insertion
step of a stable insertion sort. -/
def orderedInsertB (le : α → α → Bool) (a : α) : List α → List α
  | [] => [a]
  | b :: l => if le a b then a :: b :: l else b :: orderedInsertB le a l

/-- Stable insertion sort. -/
def insertionSortB (le : α → α → Bool) : List α → List α
  | [] => []
  | a :: l => orderedInsertB le a (insertionSortB le l)

/-- The itertools `sorted_by` step.  Rust `sort_by` is a stable sort by the
comparator; a stable sort is extensionally determined by the induced
not-greater relation, so the embedding uses a stable insertion sort. -/
def sortedNodes (o : SortOrder) (l : List Entry) : List Entry :=
  insertionSortB (cmpLe o) l

/-- `let first = sorted_nodes.remove(0); sorted_nodes.push(first)`:
move the first element to the end.  `Vec::remove(0)` panics on an empty
vector, modelled by `none`. -/
def rotateFirstToLast : List Entry → Option (List Entry)
  | [] => none
  | x :: xs => some (xs ++ [x])

/-- The whole Ordering Engine: stable sort by the policy comparator, then for
FocusHistory move the first (most recent) entry to the end. -/
def orderingEngine (o : SortOrder) (l : List Entry) : Option (List Entry) :=
  match o with
  | SortOrder.focusHistory => rotateFirstToLast (sortedNodes o l)
  | _ => some (sortedNodes o l)

/-! ## The Line Renderer (main.rs lines 118-146) -/

/-- Embeds the Rust replace call on the raw title (main.rs line 129): every
single-quote character (code 39) is replaced by the
right-single-quotation-mark character (code 8217) so that it cannot
terminate the single-quoted shell string. -/
def escapeTitle (s : String) : String :=
  String.mk (s.data.map fun c => if c = Char.ofNat 39 then Char.ofNat 8217 else c)

/-- A template evaluator: given the three named bindings line_number,
(escaped) xtitle and number_of_nodes, produce the rendered line.  The
program delegates this to the shell (`sh`), an external collaborator, so it
is a parameter of the model. -/
abbrev TemplateEval := Nat → String → Nat → String

/-- The rendered (text, nodeId) pairs, in pre-reversal order: each entry is
numbered by `enumerate`, its title escaped and the template evaluated. -/
def renderPairs (ev : TemplateEval) (n : Nat) (sortedE : List Entry) :
    List (String × String) :=
  sortedE.enum.map fun p => (ev p.1 (escapeTitle p.2.1) n, p.2.2)

/-- The (position, rendered text, nodeId) triples of the Line Renderer. -/
def renderTriples (ev : TemplateEval) (n : Nat) (sortedE : List Entry) :
    List (Nat × String × String) :=
  sortedE.enum.map fun p => (p.1, ev p.1 (escapeTitle p.2.1) n, p.2.2)

/-- `if cli.is_present("reverse") { formated_nodes.reverse() }`. -/
def maybeReverse (b : Bool) (l : List α) : List α :=
  if b then l.reverse else l

/-! ## Resolution & Dispatch (main.rs lines 157-163) -/

/-- Embeds `Iterator::position`: the index of the first element satisfying
the predicate, `none` when there is none. -/
def position (p : α → Bool) : List α → Option Nat
  | [] => none
  | x :: xs => if p x then some 0 else (position p xs).map (· + 1)

/-- `nodes[titles.iter().position(|t| t == &target).expect(..)]`: find the
first rendered line whose text equals the selector output byte-for-byte and
return its bound identifier; `none` models the `.expect` panic.  The index
returned by `position` is within bounds of `nodes` because the two lists
are unzipped from the same list, so the `getD` default is never used. -/
def resolveDispatch (rendered : List (String × String)) (target : String) :
    Option String :=
  (position (fun t => t == target) (rendered.map Prod.fst)).map
    fun i => (rendered.map Prod.snd).getD i ""

/-! ## The whole run (main.rs `run`) -/

/-- The per-run configuration read from the CLI (external glue). -/
structure Config where
  srcFlag : Bool
  sortOrder : SortOrder
  reverse : Bool

/-- The responses of the external collaborators for one run. -/
structure World where
  /-- nodeId of each focus-history event, most recently focused last. -/
  historyRaw : List String
  /-- the lines of the xtitle output for the deduplicated identifiers. -/
  xtitleLines : List String
  /-- the shell evaluating the format string (and optional pipe). -/
  evalTemplate : TemplateEval
  /-- dmenu: given the menu lines, the text it prints (empty on cancel). -/
  selector : List String → String

/-- Observable external actions of a run, in order. -/
inductive Effect where
  | depCheck
  | fetchHistory
  | fetchTitles (ids : List String)
  | renderCall (lineNumber : Nat) (xtitle : String) (numberOfNodes : Nat)
  | invokeSelector (menuLines : List String)
  | focusNode (id : String)
  | printSource
deriving DecidableEq, Repr

/-- How the process ends: normally, or aborted by a Rust panic. -/
inductive RunResult where
  | ok
  | panic
deriving DecidableEq, Repr

/-- The render-stage `sh` invocations with their three named bindings
(line_number, escaped xtitle, number_of_nodes), in order. -/
def renderCalls (n : Nat) (sortedE : List Entry) : List Effect :=
  sortedE.enum.map fun p => Effect.renderCall p.1 (escapeTitle p.2.1) n

/-- The model of `run` (main.rs lines 75-165): the ordered trace of external
actions and the way the process ends.  The `--src` early return comes before
the dependency check; `number_of_nodes` is the count of xtitle output lines;
the reverse flag is applied after formatting; an unmatched selector output
panics at the `.expect`. -/
def runModel (cfg : Config) (w : World) : List Effect × RunResult :=
  if cfg.srcFlag then ([Effect.printSource], RunResult.ok)
  else
    let ids := dedupHistory w.historyRaw
    let entries := pairEntries w.xtitleLines ids
    let pre := [Effect.depCheck, Effect.fetchHistory, Effect.fetchTitles ids]
    match orderingEngine cfg.sortOrder entries with
    | none => (pre, RunResult.panic)
    | some sortedE =>
      let n := w.xtitleLines.length
      let displayed := maybeReverse cfg.reverse (renderPairs w.evalTemplate n sortedE)
      let titles := displayed.map Prod.fst
      let target := w.selector titles
      match resolveDispatch displayed target with
      | none =>
          (pre ++ renderCalls n sortedE ++ [Effect.invokeSelector titles],
            RunResult.panic)
      | some nodeId =>
          (pre ++ renderCalls n sortedE
            ++ [Effect.invokeSelector titles, Effect.focusNode nodeId],
            RunResult.ok)

/-- The displayed (text, nodeId) list handed to the selector, when the
Ordering Engine does not panic. -/
def displayedPairs (cfg : Config) (w : World) : Option (List (String × String)) :=
  (orderingEngine cfg.sortOrder
      (pairEntries w.xtitleLines (dedupHistory w.historyRaw))).map
    fun s => maybeReverse cfg.reverse (renderPairs w.evalTemplate w.xtitleLines.length s)

/-- The displayed (position, text, nodeId) triples in presentation order. -/
def displayedTriples (cfg : Config) (w : World) :
    Option (List (Nat × String × String)) :=
  (orderingEngine cfg.sortOrder
      (pairEntries w.xtitleLines (dedupHistory w.historyRaw))).map
    fun s => maybeReverse cfg.reverse (renderTriples w.evalTemplate w.xtitleLines.length s)

/-! ## Properties of the stable sort -/

theorem orderedInsertB_perm (le : α → α → Bool) (a : α) :
    ∀ (l : List α), List.Perm (orderedInsertB le a l) (a :: l)
  | [] => List.Perm.refl _
  | b :: t => by
    rw [orderedInsertB]
    by_cases h : le a b = true
    · rw [if_pos h]
    · rw [if_neg h]
      exact ((orderedInsertB_perm le a t).cons b).trans (List.Perm.swap a b t)

theorem insertionSortB_perm (le : α → α → Bool) :
    ∀ (l : List α), List.Perm (insertionSortB le l) l
  | [] => List.Perm.refl _
  | a :: t => by
    rw [insertionSortB]
    exact (orderedInsertB_perm le a _).trans ((insertionSortB_perm le t).cons a)

theorem mem_orderedInsertB {le : α → α → Bool} {a x : α} {l : List α} :
    x ∈ orderedInsertB le a l ↔ x = a ∨ x ∈ l := by
  rw [(orderedInsertB_perm le a l).mem_iff, List.mem_cons]

theorem sorted_orderedInsertB {le : α → α → Bool}
    (trans : ∀ x y z, le x y = true → le y z = true → le x z = true)
    (total : ∀ x y, le x y = false → le y x = true) (a : α) :
    ∀ {l : List α}, l.Pairwise (fun x y => le x y = true) →
      (orderedInsertB le a l).Pairwise (fun x y => le x y = true) := by
  intro l
  induction l with
  | nil => intro _; simp [orderedInsertB]
  | cons b t ih =>
    intro h
    rw [orderedInsertB]
    by_cases hab : le a b = true
    · rw [if_pos hab]
      refine List.Pairwise.cons ?_ h
      intro y hy
      rcases List.mem_cons.mp hy with hyb | hyt
      · exact hyb ▸ hab
      · exact trans a b y hab (List.rel_of_pairwise_cons h hyt)
    · rw [if_neg hab]
      refine List.Pairwise.cons ?_ (ih (List.Pairwise.sublist (List.sublist_cons_self b t) h))
      intro y hy
      rcases mem_orderedInsertB.mp hy with hya | hyt
      · exact hya ▸ total a b (Bool.eq_false_iff.mpr hab)
      · exact List.rel_of_pairwise_cons h hyt

theorem sorted_insertionSortB {le : α → α → Bool}
    (trans : ∀ x y z, le x y = true → le y z = true → le x z = true)
    (total : ∀ x y, le x y = false → le y x = true) :
    ∀ (l : List α), (insertionSortB le l).Pairwise (fun x y => le x y = true)
  | [] => by simp [insertionSortB]
  | a :: t => by
    rw [insertionSortB]
    exact sorted_orderedInsertB trans total a (sorted_insertionSortB trans total t)

theorem filter_orderedInsertB_pos {le : α → α → Bool} {p : α → Bool} {a : α}
    (hp : ∀ x y, p x = true → p y = true → le x y = true) (hpa : p a = true) :
    ∀ (l : List α), (orderedInsertB le a l).filter p = a :: l.filter p
  | [] => by simp [orderedInsertB, hpa]
  | b :: t => by
    rw [orderedInsertB]
    by_cases hab : le a b = true
    · rw [if_pos hab]
      simp [List.filter_cons, hpa]
    · rw [if_neg hab]
      have hpb : p b = false := by
        cases hb : p b with
        | false => rfl
        | true => exact absurd (hp a b hpa hb) hab
      simp only [List.filter_cons, hpb, Bool.false_eq_true, if_false]
      exact filter_orderedInsertB_pos hp hpa t

theorem filter_orderedInsertB_neg {le : α → α → Bool} {p : α → Bool} {a : α}
    (hpa : p a = false) :
    ∀ (l : List α), (orderedInsertB le a l).filter p = l.filter p
  | [] => by simp [orderedInsertB, hpa]
  | b :: t => by
    rw [orderedInsertB]
    by_cases hab : le a b = true
    · rw [if_pos hab]
      simp only [List.filter_cons, hpa, Bool.false_eq_true, if_false]
    · rw [if_neg hab, List.filter_cons, List.filter_cons]
      rw [filter_orderedInsertB_neg hpa t]

theorem filter_insertionSortB {le : α → α → Bool} {p : α → Bool}
    (hp : ∀ x y, p x = true → p y = true → le x y = true) :
    ∀ (l : List α), (insertionSortB le l).filter p = l.filter p
  | [] => rfl
  | a :: t => by
    rw [insertionSortB, List.filter_cons]
    cases ha : p a with
    | true =>
      simp only [if_true]
      rw [filter_orderedInsertB_pos hp ha, filter_insertionSortB hp t]
    | false =>
      simp only [Bool.false_eq_true, if_false]
      rw [filter_orderedInsertB_neg ha, filter_insertionSortB hp t]

theorem orderedInsertB_of_true {le : α → α → Bool} {a : α}
    (h : ∀ x y, le x y = true) (l : List α) :
    orderedInsertB le a l = a :: l := by
  cases l with
  | nil => rfl
  | cons b t => rw [orderedInsertB, if_pos (h a b)]

theorem insertionSortB_of_true {le : α → α → Bool}
    (h : ∀ x y, le x y = true) : ∀ (l : List α), insertionSortB le l = l
  | [] => rfl
  | a :: t => by
    rw [insertionSortB, insertionSortB_of_true h t, orderedInsertB_of_true h]

theorem cmpLe_focusHistory_true (a b : Entry) :
    cmpLe SortOrder.focusHistory a b = true := rfl

theorem cmpLe_focusHistoryCurrentFirst_true (a b : Entry) :
    cmpLe SortOrder.focusHistoryCurrentFirst a b = true := rfl

/-- Under the two focus-history policies the comparator always answers
`Equal`, so the stable sort leaves the list unchanged. -/
theorem sortedNodes_focusHistory_eq (l : List Entry) :
    sortedNodes SortOrder.focusHistory l = l :=
  insertionSortB_of_true cmpLe_focusHistory_true l

theorem sortedNodes_focusHistoryCurrentFirst_eq (l : List Entry) :
    sortedNodes SortOrder.focusHistoryCurrentFirst l = l :=
  insertionSortB_of_true cmpLe_focusHistoryCurrentFirst_true l

/-- Claim C4: on a non-empty entry list the FocusHistory policy moves exactly
the first (most recent) entry to the end, keeping the relative order of the
others, and downstream numbering re-indexes positions 0..n-1;
FocusHistoryCurrentFirst leaves the list unchanged.  Concretely [X,Y,Z]
yields [Y,Z,X] under FocusHistory and [X,Y,Z] under
FocusHistoryCurrentFirst. -/
theorem claim_C4_focus_history_rotation (e : Entry) (l : List Entry) :
    orderingEngine SortOrder.focusHistory (e :: l) = some (l ++ [e])
    ∧ orderingEngine SortOrder.focusHistoryCurrentFirst (e :: l) = some (e :: l)
    ∧ (l ++ [e]).enum.map Prod.fst = List.range (l.length + 1)
    ∧ orderingEngine SortOrder.focusHistory [("X", "1"), ("Y", "2"), ("Z", "3")]
        = some [("Y", "2"), ("Z", "3"), ("X", "1")]
    ∧ orderingEngine SortOrder.focusHistoryCurrentFirst
        [("X", "1"), ("Y", "2"), ("Z", "3")]
        = some [("X", "1"), ("Y", "2"), ("Z", "3")] := by
  refine ⟨?_, ?_, ?_, by decide, by decide⟩
  · show rotateFirstToLast (sortedNodes SortOrder.focusHistory (e :: l)) = some (l ++ [e])
    rw [sortedNodes_focusHistory_eq]
    rfl
  · show some (sortedNodes SortOrder.focusHistoryCurrentFirst (e :: l)) = some (e :: l)
    rw [sortedNodes_focusHistoryCurrentFirst_eq]
  · rw [List.enum_map_fst, List.length_append, List.length_cons, List.length_nil]

/-! ## The Creation policy as a stable sort by identifier -/

theorem cmpLe_creation_iff (a b : Entry) :
    cmpLe SortOrder.creation a b = true ↔ a.2 ≤ b.2 := by
  show (cmpStr a.2 b.2 != Ordering.gt) = true ↔ a.2 ≤ b.2
  rw [cmpStr]
  by_cases h1 : a.2 < b.2
  · rw [if_pos h1]
    exact iff_of_true rfl (le_of_lt h1)
  · rw [if_neg h1]
    by_cases h2 : a.2 = b.2
    · rw [if_pos h2]
      exact iff_of_true rfl (le_of_eq h2)
    · rw [if_neg h2]
      have hn : ¬ a.2 ≤ b.2 := fun hle => h2 (le_antisymm hle (not_lt.mp h1))
      exact iff_of_false (by decide) hn

theorem cmpLe_creation_trans :
    ∀ x y z : Entry, cmpLe SortOrder.creation x y = true →
      cmpLe SortOrder.creation y z = true → cmpLe SortOrder.creation x z = true := by
  intro x y z hxy hyz
  rw [cmpLe_creation_iff] at *
  exact le_trans hxy hyz

theorem cmpLe_creation_total :
    ∀ x y : Entry, cmpLe SortOrder.creation x y = false →
      cmpLe SortOrder.creation y x = true := by
  intro x y hxy
  rw [cmpLe_creation_iff]
  by_contra hyx
  have := le_of_not_le hyx
  rw [← cmpLe_creation_iff] at this
  rw [this] at hxy
  cases hxy

/-- Claim C9: under the Creation policy the Ordering Engine stable-sorts the
entries by identifier ascending: the result is sorted by identifier, is a
permutation of the input, and entries with any given identifier (ties) keep
their pre-sort relative order. -/
theorem claim_C9_creation_stable_sort (l : List Entry) :
    orderingEngine SortOrder.creation l = some (sortedNodes SortOrder.creation l)
    ∧ (sortedNodes SortOrder.creation l).Pairwise (fun a b => a.2 ≤ b.2)
    ∧ List.Perm (sortedNodes SortOrder.creation l) l
    ∧ ∀ k : String, (sortedNodes SortOrder.creation l).filter (fun e => e.2 == k)
        = l.filter (fun e => e.2 == k) := by
  refine ⟨rfl, ?_, insertionSortB_perm _ l, ?_⟩
  · have h := sorted_insertionSortB cmpLe_creation_trans cmpLe_creation_total l
    exact h.imp fun hxy => (cmpLe_creation_iff _ _).mp hxy
  · intro k
    refine filter_insertionSortB ?_ l
    intro x y hx hy
    rw [cmpLe_creation_iff]
    have hx' : x.2 = k := by simpa using hx
    have hy' : y.2 = k := by simpa using hy
    rw [hx', hy']

/-! ## Properties of `position` and the reverse lookup -/

theorem position_none_iff (p : α → Bool) :
    ∀ (l : List α), position p l = none ↔ ∀ x ∈ l, p x = false := by
  intro l
  induction l with
  | nil => simp [position]
  | cons x xs ih =>
    rw [position]
    by_cases h : p x = true
    · rw [if_pos h]
      constructor
      · intro hc; cases hc
      · intro hall
        exact absurd (hall x (List.mem_cons_self x xs)) (by simp [h])
    · rw [if_neg h]
      rw [Option.map_eq_none', ih]
      constructor
      · intro hall y hy
        rcases List.mem_cons.mp hy with rfl | hyt
        · exact Bool.eq_false_iff.mpr h
        · exact hall y hyt
      · intro hall y hy
        exact hall y (List.mem_cons_of_mem x hy)

theorem position_some_spec (p : α → Bool) (d : α) :
    ∀ (l : List α) (j : Nat), position p l = some j →
      j < l.length ∧ p (l.getD j d) = true ∧ ∀ k, k < j → p (l.getD k d) = false := by
  intro l
  induction l with
  | nil => intro j h; cases h
  | cons x xs ih =>
    intro j h
    rw [position] at h
    by_cases hx : p x = true
    · rw [if_pos hx] at h
      cases h
      refine ⟨Nat.succ_pos _, by simpa using hx, ?_⟩
      intro k hk
      exact absurd hk (Nat.not_lt_zero k)
    · rw [if_neg hx] at h
      rcases Option.map_eq_some'.mp h with ⟨m, hm, hjm⟩
      subst hjm
      obtain ⟨h1, h2, h3⟩ := ih m hm
      refine ⟨Nat.succ_lt_succ h1, by simpa using h2, ?_⟩
      intro k hk
      cases k with
      | zero => simpa using Bool.eq_false_iff.mpr hx
      | succ k' =>
        rw [List.getD_cons_succ]
        exact h3 k' (Nat.lt_of_succ_lt_succ hk)

theorem getD_map_of_lt (f : α → β) (l : List α) (i : Nat) (da : α) (db : β)
    (h : i < l.length) : (l.map f).getD i db = f (l.getD i da) := by
  rw [List.getD_eq_getElem?_getD, List.getD_eq_getElem?_getD, List.getElem?_map,
    List.getElem?_eq_getElem h]
  rfl

theorem getD_mem_of_lt (l : List α) (i : Nat) (d : α) (h : i < l.length) :
    l.getD i d ∈ l := by
  rw [List.getD_eq_getElem?_getD, List.getElem?_eq_getElem h]
  exact List.get_mem l i h

/-- Resolution finds the first (and only the first) rendered line whose text
matches the requested one, and returns its bound identifier. -/
theorem resolve_first_match (rendered : List (String × String)) (i : Nat)
    (hi : i < rendered.length) :
    ∃ j, j ≤ i
      ∧ (rendered.getD j ("", "")).1 = (rendered.getD i ("", "")).1
      ∧ (∀ k, k < j → (rendered.getD k ("", "")).1 ≠ (rendered.getD i ("", "")).1)
      ∧ resolveDispatch rendered (rendered.getD i ("", "")).1
          = some (rendered.getD j ("", "")).2 := by
  set target := (rendered.getD i ("", "")).1 with htarget
  have hmemi : (rendered.map Prod.fst).getD i "" = target := by
    rw [htarget, getD_map_of_lt Prod.fst rendered i ("", "") "" hi]
  have hlen : (rendered.map Prod.fst).length = rendered.length := List.length_map _ _
  have hpos : position (fun t => t == target) (rendered.map Prod.fst) ≠ none := by
    intro hnone
    have hall := (position_none_iff _ _).mp hnone
    have hmem : (rendered.map Prod.fst).getD i "" ∈ rendered.map Prod.fst :=
      getD_mem_of_lt _ _ _ (by rw [hlen]; exact hi)
    have := hall _ hmem
    rw [hmemi] at this
    simp at this
  rcases Option.ne_none_iff_exists'.mp hpos with ⟨j, hj⟩
  obtain ⟨hjlen, hpj, hbefore⟩ :=
    position_some_spec (fun t => t == target) "" (rendered.map Prod.fst) j hj
  have hjr : j < rendered.length := by rwa [hlen] at hjlen
  have hj_eq : (rendered.getD j ("", "")).1 = target := by
    rw [getD_map_of_lt Prod.fst rendered j ("", "") "" hjr] at hpj
    exact eq_of_beq hpj
  have hji : j ≤ i := by
    by_contra hgt
    have hik : i < j := Nat.lt_of_not_le hgt
    have := hbefore i hik
    rw [hmemi] at this
    simp at this
  refine ⟨j, hji, hj_eq, ?_, ?_⟩
  · intro k hk heq
    have hkr : k < rendered.length := Nat.lt_of_lt_of_le (Nat.lt_of_lt_of_le hk hji) (Nat.le_of_lt hi)
    have := hbefore k hk
    rw [getD_map_of_lt Prod.fst rendered k ("", "") "" hkr, heq] at this
    simp at this
  · rw [resolveDispatch, hj]
    rw [Option.map_some']
    rw [getD_map_of_lt Prod.snd rendered j ("", "") "" hjr]

/-- Claim C2: for every rendered line of a run, Resolution & Dispatch on its
exact text finds the first displayed line (in display order, after any
reversal) with byte-for-byte equal text and dispatches the identifier bound
to that line and no other; with duplicate texts the first in display order
wins deterministically. -/
theorem claim_C2_roundtrip (cfg : Config) (w : World)
    (d : List (String × String)) (hd : displayedPairs cfg w = some d)
    (i : Nat) (hi : i < d.length) :
    ∃ j, j ≤ i
      ∧ (d.getD j ("", "")).1 = (d.getD i ("", "")).1
      ∧ (∀ k, k < j → (d.getD k ("", "")).1 ≠ (d.getD i ("", "")).1)
      ∧ resolveDispatch d (d.getD i ("", "")).1 = some (d.getD j ("", "")).2 :=
  resolve_first_match d i hi

/-- Witness for claim C2: a run whose two entries render identical text;
resolution of that text dispatches the identifier of the first displayed
line. -/
theorem claim_C2_roundtrip_witness :
    ∃ j, j ≤ 1
      ∧ (([("a", "2"), ("a", "1")] : List (String × String)).getD j ("", "")).1
          = (([("a", "2"), ("a", "1")] : List (String × String)).getD 1 ("", "")).1
      ∧ (∀ k, k < j →
          (([("a", "2"), ("a", "1")] : List (String × String)).getD k ("", "")).1
            ≠ (([("a", "2"), ("a", "1")] : List (String × String)).getD 1 ("", "")).1)
      ∧ resolveDispatch [("a", "2"), ("a", "1")]
          (([("a", "2"), ("a", "1")] : List (String × String)).getD 1 ("", "")).1
          = some (([("a", "2"), ("a", "1")] : List (String × String)).getD j ("", "")).2 :=
  claim_C2_roundtrip ⟨false, SortOrder.focusHistoryCurrentFirst, false⟩
    ⟨["1", "2"], ["t", "u"], fun _ _ _ => "a", fun _ => ""⟩
    [("a", "2"), ("a", "1")] (by decide) 1 (by decide)

/-- Claim C6: the rendered (position, text, identifier) triples are the same
whether the reverse flag is set or not (the two displayed lists are
permutations, hence equal as sets); the flag only reverses the presentation
order, because positions and formatting are fixed before the reversal. -/
theorem claim_C6_reverse_presentation_only (cfg : Config) (w : World) :
    displayedTriples { cfg with reverse := true } w
      = (displayedTriples { cfg with reverse := false } w).map List.reverse
    ∧ ∀ l1 l2, displayedTriples { cfg with reverse := true } w = some l1 →
        displayedTriples { cfg with reverse := false } w = some l2 →
        List.Perm l1 l2 ∧ ∀ x, x ∈ l1 ↔ x ∈ l2 := by
  have h1 : displayedTriples { cfg with reverse := true } w
      = (displayedTriples { cfg with reverse := false } w).map List.reverse := by
    cases hord : orderingEngine cfg.sortOrder
        (pairEntries w.xtitleLines (dedupHistory w.historyRaw)) with
    | none => simp [displayedTriples, hord]
    | some s => simp [displayedTriples, hord, maybeReverse]
  refine ⟨h1, ?_⟩
  intro l1 l2 hl1 hl2
  rw [h1, hl2] at hl1
  have hrev : l2.reverse = l1 := by simpa using hl1
  subst hrev
  exact ⟨List.reverse_perm l2, fun x => List.mem_reverse⟩

/-- Witness for claim C6 at a concrete run with two entries. -/
theorem claim_C6_reverse_presentation_only_witness :
    List.Perm [(1, "a", "1"), (0, "a", "2")] [(0, "a", "2"), (1, "a", "1")]
    ∧ ∀ x : Nat × String × String,
        x ∈ [(1, "a", "1"), (0, "a", "2")] ↔ x ∈ [(0, "a", "2"), (1, "a", "1")] :=
  (claim_C6_reverse_presentation_only
      ⟨false, SortOrder.focusHistoryCurrentFirst, false⟩
      ⟨["1", "2"], ["t", "u"], fun _ _ _ => "a", fun _ => ""⟩).2
    [(1, "a", "1"), (0, "a", "2")] [(0, "a", "2"), (1, "a", "1")]
    (by decide) (by decide)

/-! ## Characterizations of `runModel` by branch -/

theorem runModel_src_eq (cfg : Config) (w : World) (h : cfg.srcFlag = true) :
    runModel cfg w = ([Effect.printSource], RunResult.ok) := by
  rw [runModel, if_pos h]

theorem runModel_ordering_panic (cfg : Config) (w : World) (h : cfg.srcFlag = false)
    (hord : orderingEngine cfg.sortOrder
      (pairEntries w.xtitleLines (dedupHistory w.historyRaw)) = none) :
    runModel cfg w = ([Effect.depCheck, Effect.fetchHistory,
      Effect.fetchTitles (dedupHistory w.historyRaw)], RunResult.panic) := by
  rw [runModel, if_neg (by simp [h])]
  simp only [hord]

theorem runModel_resolve_panic (cfg : Config) (w : World) (h : cfg.srcFlag = false)
    (sortedE : List Entry)
    (hord : orderingEngine cfg.sortOrder
      (pairEntries w.xtitleLines (dedupHistory w.historyRaw)) = some sortedE)
    (hres : resolveDispatch
        (maybeReverse cfg.reverse
          (renderPairs w.evalTemplate w.xtitleLines.length sortedE))
        (w.selector ((maybeReverse cfg.reverse
          (renderPairs w.evalTemplate w.xtitleLines.length sortedE)).map Prod.fst))
        = none) :
    runModel cfg w = ([Effect.depCheck, Effect.fetchHistory,
        Effect.fetchTitles (dedupHistory w.historyRaw)]
      ++ renderCalls w.xtitleLines.length sortedE
      ++ [Effect.invokeSelector ((maybeReverse cfg.reverse
          (renderPairs w.evalTemplate w.xtitleLines.length sortedE)).map Prod.fst)],
      RunResult.panic) := by
  rw [runModel, if_neg (by simp [h])]
  simp only [hord, hres]

theorem runModel_resolve_ok (cfg : Config) (w : World) (h : cfg.srcFlag = false)
    (sortedE : List Entry) (nodeId : String)
    (hord : orderingEngine cfg.sortOrder
      (pairEntries w.xtitleLines (dedupHistory w.historyRaw)) = some sortedE)
    (hres : resolveDispatch
        (maybeReverse cfg.reverse
          (renderPairs w.evalTemplate w.xtitleLines.length sortedE))
        (w.selector ((maybeReverse cfg.reverse
          (renderPairs w.evalTemplate w.xtitleLines.length sortedE)).map Prod.fst))
        = some nodeId) :
    runModel cfg w = ([Effect.depCheck, Effect.fetchHistory,
        Effect.fetchTitles (dedupHistory w.historyRaw)]
      ++ renderCalls w.xtitleLines.length sortedE
      ++ [Effect.invokeSelector ((maybeReverse cfg.reverse
          (renderPairs w.evalTemplate w.xtitleLines.length sortedE)).map Prod.fst),
          Effect.focusNode nodeId],
      RunResult.ok) := by
  rw [runModel, if_neg (by simp [h])]
  simp only [hord, hres]

theorem orderingEngine_nil (o : SortOrder) :
    orderingEngine o [] = if o = SortOrder.focusHistory then none else some [] := by
  cases o <;> rfl

theorem renderPairs_nil (ev : TemplateEval) (n : Nat) : renderPairs ev n [] = [] := rfl

theorem renderCalls_nil (n : Nat) : renderCalls n [] = [] := rfl

theorem maybeReverse_nil (b : Bool) : maybeReverse b ([] : List α) = [] := by
  cases b <;> rfl

/-! ## Claim C10: the src flag short-circuits everything -/

/-- Claim C10: with the src flag present the program prints its own source
and returns success immediately: no dependency check, no external
collaborator, no pipeline stage. -/
theorem claim_C10_src_short_circuit (cfg : Config) (w : World)
    (h : cfg.srcFlag = true) :
    runModel cfg w = ([Effect.printSource], RunResult.ok)
    ∧ Effect.depCheck ∉ (runModel cfg w).1
    ∧ Effect.fetchHistory ∉ (runModel cfg w).1
    ∧ (∀ ids, Effect.fetchTitles ids ∉ (runModel cfg w).1)
    ∧ (∀ i t n, Effect.renderCall i t n ∉ (runModel cfg w).1)
    ∧ (∀ ls, Effect.invokeSelector ls ∉ (runModel cfg w).1)
    ∧ (∀ id, Effect.focusNode id ∉ (runModel cfg w).1) := by
  have he : runModel cfg w = ([Effect.printSource], RunResult.ok) :=
    runModel_src_eq cfg w h
  rw [he]
  refine ⟨rfl, by simp, by simp, ?_, ?_, ?_, ?_⟩
  · intro ids; simp
  · intro i t n; simp
  · intro ls; simp
  · intro id; simp

/-- Witness for claim C10. -/
theorem claim_C10_src_short_circuit_witness :
    runModel ⟨true, SortOrder.focusHistory, false⟩
      ⟨[], [], fun _ t _ => t, fun _ => ""⟩ = ([Effect.printSource], RunResult.ok) :=
  (claim_C10_src_short_circuit ⟨true, SortOrder.focusHistory, false⟩
    ⟨[], [], fun _ t _ => t, fun _ => ""⟩ rfl).1

/-! ## Claim C3: there is no title/identifier count check -/

/-- Counterexample to claim C3: the Title Resolver returns one line for two
identifiers, yet no error is signalled: the run renders, reaches the
Selector Bridge and finishes normally. -/
theorem claim_C3_counterexample :
    (["t"] : List String).length ≠ (dedupHistory ["1", "2"]).length
    ∧ Effect.invokeSelector ["t"] ∈
        (runModel ⟨false, SortOrder.creation, false⟩
          ⟨["1", "2"], ["t"], fun _ t _ => t, fun l => l.headD ""⟩).1
    ∧ (runModel ⟨false, SortOrder.creation, false⟩
        ⟨["1", "2"], ["t"], fun _ t _ => t, fun l => l.headD ""⟩).2
      = RunResult.ok := by decide

/-- Claim C3 amended: on a title/identifier count mismatch the pipeline
signals nothing: it pairs titles with identifiers positionally, truncating
to the shorter list (`zip`), and proceeds to the Selector Bridge whenever
the Ordering Engine returns (which it does except for FocusHistory on an
empty entry list). -/
theorem claim_C3_amended (cfg : Config) (w : World) (hsrc : cfg.srcFlag = false)
    (hmis : w.xtitleLines.length ≠ (dedupHistory w.historyRaw).length)
    (sortedE : List Entry)
    (hord : orderingEngine cfg.sortOrder
      (pairEntries w.xtitleLines (dedupHistory w.historyRaw)) = some sortedE) :
    (pairEntries w.xtitleLines (dedupHistory w.historyRaw)).length
        ≤ min w.xtitleLines.length (dedupHistory w.historyRaw).length
    ∧ Effect.invokeSelector
        ((maybeReverse cfg.reverse
          (renderPairs w.evalTemplate w.xtitleLines.length sortedE)).map Prod.fst)
        ∈ (runModel cfg w).1 := by
  constructor
  · exact le_trans (List.length_filter_le _ _) (le_of_eq (List.length_zip _ _))
  · cases hres : resolveDispatch
        (maybeReverse cfg.reverse
          (renderPairs w.evalTemplate w.xtitleLines.length sortedE))
        (w.selector ((maybeReverse cfg.reverse
          (renderPairs w.evalTemplate w.xtitleLines.length sortedE)).map Prod.fst)) with
    | none =>
      rw [runModel_resolve_panic cfg w hsrc sortedE hord hres]
      simp
    | some nid =>
      rw [runModel_resolve_ok cfg w hsrc sortedE nid hord hres]
      simp

/-- Witness for the amended claim C3. -/
theorem claim_C3_amended_witness :
    Effect.invokeSelector ["t"] ∈
      (runModel ⟨false, SortOrder.creation, false⟩
        ⟨["1", "2"], ["t"], fun _ t _ => t, fun l => l.headD ""⟩).1 :=
  (claim_C3_amended ⟨false, SortOrder.creation, false⟩
    ⟨["1", "2"], ["t"], fun _ t _ => t, fun l => l.headD ""⟩
    rfl (by decide) [("t", "2")] (by decide)).2

/-! ## Claim C5: zero entries -/

/-- Counterexample to claim C5: with zero entries the default FocusHistory
policy does not produce an empty sequence without failing: the run aborts
(`Vec::remove(0)` panics on the empty vector) before reaching the
selector. -/
theorem claim_C5_counterexample :
    pairEntries ([] : List String) (dedupHistory []) = []
    ∧ runModel ⟨false, SortOrder.focusHistory, false⟩
        ⟨[], [], fun _ t _ => t, fun l => l.headD ""⟩
      = ([Effect.depCheck, Effect.fetchHistory, Effect.fetchTitles []],
         RunResult.panic) := by decide

/-- Claim C5 amended: with zero entries the Ordering Engine produces the
empty sequence under every policy except FocusHistory, under which it fails
(panic on removing from an empty vector); in every case the focus-apply
sink is never invoked (under the non-FocusHistory policies the run still
aborts later, at selection resolution, rather than exiting cleanly). -/
theorem claim_C5_amended :
    orderingEngine SortOrder.focusHistory ([] : List Entry) = none
    ∧ (∀ o : SortOrder, o ≠ SortOrder.focusHistory →
        orderingEngine o ([] : List Entry) = some [])
    ∧ ∀ (cfg : Config) (w : World), cfg.srcFlag = false →
        pairEntries w.xtitleLines (dedupHistory w.historyRaw) = [] →
        ∀ id, Effect.focusNode id ∉ (runModel cfg w).1 := by
  refine ⟨rfl, ?_, ?_⟩
  · intro o ho
    cases o with
    | focusHistory => exact absurd rfl ho
    | focusHistoryCurrentFirst => rfl
    | creation => rfl
    | alphabetical => rfl
  · intro cfg w hsrc hentries id
    have hord := orderingEngine_nil cfg.sortOrder
    by_cases hfh : cfg.sortOrder = SortOrder.focusHistory
    · rw [if_pos hfh] at hord
      rw [runModel_ordering_panic cfg w hsrc (by rw [hentries]; exact hord)]
      simp
    · rw [if_neg hfh] at hord
      have hord' : orderingEngine cfg.sortOrder
          (pairEntries w.xtitleLines (dedupHistory w.historyRaw)) = some [] := by
        rw [hentries]; exact hord
      have hres : resolveDispatch
          (maybeReverse cfg.reverse
            (renderPairs w.evalTemplate w.xtitleLines.length []))
          (w.selector ((maybeReverse cfg.reverse
            (renderPairs w.evalTemplate w.xtitleLines.length [])).map Prod.fst))
          = none := by
        rw [renderPairs_nil, maybeReverse_nil]
        rfl
      rw [runModel_resolve_panic cfg w hsrc [] hord' hres]
      simp [renderCalls_nil]

/-- Witness for the amended claim C5. -/
theorem claim_C5_amended_witness :
    Effect.focusNode "x" ∉
      (runModel ⟨false, SortOrder.creation, false⟩
        ⟨[], [], fun _ t _ => t, fun l => l.headD ""⟩).1 :=
  claim_C5_amended.2.2 ⟨false, SortOrder.creation, false⟩
    ⟨[], [], fun _ t _ => t, fun l => l.headD ""⟩ rfl rfl "x"

/-! ## Claim C7: the bindings handed to the template evaluator -/

/-- Counterexample to claim C7: with one empty title among two xtitle lines
the ordered sequence being rendered has a single entry, yet the evaluator is
invoked with total-count binding 2 (the count of xtitle output lines), not
the entry count 1. -/
theorem claim_C7_counterexample :
    orderingEngine SortOrder.creation (pairEntries ["t", ""] (dedupHistory ["1", "2"]))
      = some [("t", "2")]
    ∧ Effect.renderCall 0 "t" 2 ∈
        (runModel ⟨false, SortOrder.creation, false⟩
          ⟨["1", "2"], ["t", ""], fun _ t _ => t, fun l => l.headD ""⟩).1
    ∧ ([("t", "2")] : List Entry).length ≠ 2 := by decide

/-- Claim C7 amended: every entry is rendered through a template call with
exactly three named bindings: the entry position from the Ordering Engine,
the raw title with single-quotes substituted by a syntactically inert
equivalent, and the count of Title Resolver output lines (which equals the
entry count only when no title was filtered out or truncated). -/
theorem claim_C7_amended (cfg : Config) (w : World) (hsrc : cfg.srcFlag = false)
    (sortedE : List Entry)
    (hord : orderingEngine cfg.sortOrder
      (pairEntries w.xtitleLines (dedupHistory w.historyRaw)) = some sortedE)
    (i : Nat) (hi : i < sortedE.length) :
    Effect.renderCall i (escapeTitle (sortedE.getD i ("", "")).1) w.xtitleLines.length
      ∈ (runModel cfg w).1 := by
  have henum : (i, sortedE.getD i ("", "")) ∈ sortedE.enum := by
    have hlen : i < sortedE.enum.length := by
      rw [List.enum_length]; exact hi
    have hgd : sortedE.getD i ("", "") = sortedE[i] := by
      rw [List.getD_eq_getElem?_getD, List.getElem?_eq_getElem hi]
      rfl
    have hee := List.getElem_enum sortedE i hlen
    rw [hgd, ← hee]
    exact List.get_mem _ _ _
  have hmem : Effect.renderCall i (escapeTitle (sortedE.getD i ("", "")).1)
      w.xtitleLines.length ∈ renderCalls w.xtitleLines.length sortedE := by
    rw [renderCalls]
    exact List.mem_map.mpr ⟨(i, sortedE.getD i ("", "")), henum, rfl⟩
  cases hres : resolveDispatch
      (maybeReverse cfg.reverse
        (renderPairs w.evalTemplate w.xtitleLines.length sortedE))
      (w.selector ((maybeReverse cfg.reverse
        (renderPairs w.evalTemplate w.xtitleLines.length sortedE)).map Prod.fst)) with
  | none =>
    rw [runModel_resolve_panic cfg w hsrc sortedE hord hres]
    simp only [List.mem_append]
    exact Or.inl (Or.inr hmem)
  | some nid =>
    rw [runModel_resolve_ok cfg w hsrc sortedE nid hord hres]
    simp only [List.mem_append]
    exact Or.inl (Or.inr hmem)

/-- Witness for the amended claim C7. -/
theorem claim_C7_amended_witness :
    Effect.renderCall 0 (escapeTitle (([("t", "2")] : List Entry).getD 0 ("", "")).1)
        (["t", ""] : List String).length
      ∈ (runModel ⟨false, SortOrder.creation, false⟩
          ⟨["1", "2"], ["t", ""], fun _ t _ => t, fun l => l.headD ""⟩).1 :=
  claim_C7_amended ⟨false, SortOrder.creation, false⟩
    ⟨["1", "2"], ["t", ""], fun _ t _ => t, fun l => l.headD ""⟩
    rfl [("t", "2")] (by decide) 0 (by decide)

/-! ## Claim C8: cancellation -/

/-- Counterexample to claim C8: the selector signals cancellation (empty
output), the focus-apply sink is not invoked, but the program does not exit
cleanly: it aborts at the `.expect` on the unmatched selection. -/
theorem claim_C8_counterexample :
    runModel ⟨false, SortOrder.creation, false⟩
        ⟨["1"], ["t"], fun _ t _ => t, fun _ => ""⟩
      = ([Effect.depCheck, Effect.fetchHistory, Effect.fetchTitles ["1"],
          Effect.renderCall 0 "t" 1, Effect.invokeSelector ["t"]],
         RunResult.panic) := by decide

/-- Claim C8 amended: when the selector signals cancellation by empty output
(and the empty string is not itself among the rendered lines) the
focus-apply sink is never invoked, but the run aborts with a panic at
selection resolution instead of exiting cleanly. -/
theorem claim_C8_amended (cfg : Config) (w : World) (hsrc : cfg.srcFlag = false)
    (hsel : ∀ ts, w.selector ts = "")
    (hne : "" ∉ ((displayedPairs cfg w).getD []).map Prod.fst) :
    (runModel cfg w).2 = RunResult.panic
    ∧ ∀ id, Effect.focusNode id ∉ (runModel cfg w).1 := by
  cases hord : orderingEngine cfg.sortOrder
      (pairEntries w.xtitleLines (dedupHistory w.historyRaw)) with
  | none =>
    rw [runModel_ordering_panic cfg w hsrc hord]
    exact ⟨rfl, fun id => by simp⟩
  | some sortedE =>
    have hdp : displayedPairs cfg w
        = some (maybeReverse cfg.reverse
          (renderPairs w.evalTemplate w.xtitleLines.length sortedE)) := by
      rw [displayedPairs, hord]
      rfl
    rw [hdp, Option.getD_some] at hne
    have hres : resolveDispatch
        (maybeReverse cfg.reverse
          (renderPairs w.evalTemplate w.xtitleLines.length sortedE))
        (w.selector ((maybeReverse cfg.reverse
          (renderPairs w.evalTemplate w.xtitleLines.length sortedE)).map Prod.fst))
        = none := by
      rw [hsel]
      rw [resolveDispatch]
      have hnone : position (fun t => t == "")
          ((maybeReverse cfg.reverse
            (renderPairs w.evalTemplate w.xtitleLines.length sortedE)).map Prod.fst)
          = none := by
        rw [position_none_iff]
        intro x hx
        have hxne : x ≠ "" := fun hxe => hne (hxe ▸ hx)
        simp [hxne]
      rw [hnone]
      rfl
    rw [runModel_resolve_panic cfg w hsrc sortedE hord hres]
    refine ⟨rfl, fun id => ?_⟩
    simp only [List.mem_append, List.mem_cons, List.mem_singleton]
    rintro (⟨h | h⟩ | h)
    · simp at h
    · rw [renderCalls] at h
      rcases List.mem_map.mp h with ⟨p, _, hp⟩
      cases hp
    · simp at h

/-- Witness for the amended claim C8. -/
theorem claim_C8_amended_witness :
    (runModel ⟨false, SortOrder.creation, false⟩
      ⟨["1"], ["t"], fun _ t _ => t, fun _ => ""⟩).2 = RunResult.panic :=
  (claim_C8_amended ⟨false, SortOrder.creation, false⟩
    ⟨["1"], ["t"], fun _ t _ => t, fun _ => ""⟩
    rfl (fun _ => rfl) (by decide)).1

end BSwitcher
